import Mathlib

set_option maxRecDepth 100000

/-!
# Verification of the ankivert Markdown → Anki sync tool

Shallow embedding of `src/main.py` (the only source file of the repository)
and proofs of the specification claims about it.

The program is a linear pipeline: walk a vault directory, scan each Markdown
file for `Q:: / A::` markers, assign each card a stable identifier tag
(a truncated SHA-1 digest of `rel-path||ordinal||question`), and create or
update notes in Anki through the AnkiConnect HTTP API.

Embedding boundaries:
* Strings are Lean `String`s; Python `str` slicing and `startswith` operate on
  characters, embedded here as operations on `String.data` (the character
  list).  Python `str.strip` / `lstrip` strip whitespace characters; the
  embedding covers the ASCII whitespace set Python strips.
* File-system access (`md_path.read_text`, `relative_to`) is a boundary: the
  scanner is embedded as a function of the list of lines of the file
  (`str.splitlines` output) and of the already-computed path of the file
  relative to the vault root (`rel`).
* `hashlib.sha1` is embedded concretely: a full SHA-1 implementation over
  byte lists, so digests are computed, not stipulated.
* The HTTP layer is split in two: the response check performed by the
  `ankiconnect` helper is embedded as a function of the received response,
  and the note/deck operations are embedded as transitions of an abstract
  remote state together with an explicit trace of issued calls.
-/

/-! ## Python string primitives -/

/-- Whitespace characters stripped by Python `str.strip()` (the ASCII set:
space, tab, newline, carriage return, vertical tab, form feed). -/
def pyIsSpace (c : Char) : Bool :=
  c = ' ' || c = '\t' || c = '\n' || c = '\r' || c = Char.ofNat 11 || c = Char.ofNat 12

/-- Python `s.strip()`: remove leading and trailing whitespace. -/
def pyStrip (s : String) : String :=
  ⟨((s.data.dropWhile pyIsSpace).reverse.dropWhile pyIsSpace).reverse⟩

/-- Python `s.lstrip()`: remove leading whitespace. -/
def pyLstrip (s : String) : String :=
  ⟨s.data.dropWhile pyIsSpace⟩

/-- Python `s.startswith(pre)`: character-level prefix test. -/
def pyStartsWith (s pre : String) : Bool :=
  pre.data.isPrefixOf s.data

/-- Python `s[n:]`: drop the first `n` characters. -/
def strDrop (s : String) (n : Nat) : String :=
  ⟨s.data.drop n⟩

/-- Python `"\n".join(xs)`. -/
def joinNewline : List String → String
  | [] => ""
  | [s] => s
  | s :: ss => s ++ "\n" ++ joinNewline ss

/-! ## SHA-1 (`hashlib.sha1`), over byte lists -/

/-- Rotate a 32-bit word left by `n` bits (for `0 < n < 32`, `x < 2^32`). -/
def rotl32 (n x : Nat) : Nat :=
  ((x <<< n) % 4294967296) ||| (x >>> (32 - n))

/-- SHA-1 message padding: append `0x80`, zeros, and the 64-bit big-endian
bit length, reaching a multiple of 64 bytes. -/
def sha1Pad (msg : List Nat) : List Nat :=
  let len := msg.length
  let bitLen := 8 * len
  msg ++ [0x80] ++ List.replicate ((119 - len % 64) % 64) 0 ++
    [(bitLen >>> 56) % 256, (bitLen >>> 48) % 256, (bitLen >>> 40) % 256,
     (bitLen >>> 32) % 256, (bitLen >>> 24) % 256, (bitLen >>> 16) % 256,
     (bitLen >>> 8) % 256, bitLen % 256]

/-- Big-endian 32-bit words from a byte list. -/
def wordsOfBytes : List Nat → List Nat
  | b0 :: b1 :: b2 :: b3 :: rest =>
      ((b0 <<< 24) ||| (b1 <<< 16) ||| (b2 <<< 8) ||| b3) :: wordsOfBytes rest
  | _ => []

/-- Split a byte list into 64-byte blocks (structural recursion on a fuel
bound; each block consumes at least one byte, so `l.length` fuel suffices). -/
def chunks64Go : Nat → List Nat → List (List Nat)
  | _, [] => []
  | 0, _ :: _ => []
  | fuel + 1, b :: rest => ((b :: rest).take 64) :: chunks64Go fuel ((b :: rest).drop 64)

/-- Split a byte list into 64-byte blocks. -/
def chunks64 (l : List Nat) : List (List Nat) :=
  chunks64Go l.length l

/-- SHA-1 message-schedule expansion, keeping the schedule newest-first;
`fuel` counts the remaining words to produce (64 for a full block). -/
def sha1ExpandRev (rev : List Nat) : Nat → List Nat
  | 0 => rev
  | fuel + 1 =>
      sha1ExpandRev
        ((rotl32 1 ((rev.getD 2 0) ^^^ (rev.getD 7 0) ^^^ (rev.getD 13 0) ^^^ (rev.getD 15 0))) :: rev)
        fuel

/-- Round function and constant of SHA-1 round `i`. -/
def sha1FK (i b c d : Nat) : Nat × Nat :=
  if i < 20 then ((b &&& c) ||| ((b ^^^ 0xFFFFFFFF) &&& d), 0x5A827999)
  else if i < 40 then (b ^^^ c ^^^ d, 0x6ED9EBA1)
  else if i < 60 then ((b &&& c) ||| (b &&& d) ||| (c &&& d), 0x8F1BBCDC)
  else (b ^^^ c ^^^ d, 0xCA62C1D6)

/-- The 80 SHA-1 rounds, consuming the message schedule. -/
def sha1Rounds (i a b c d e : Nat) : List Nat → Nat × Nat × Nat × Nat × Nat
  | [] => (a, b, c, d, e)
  | w :: ws =>
      let fk := sha1FK i b c d
      let temp := (rotl32 5 a + fk.1 + e + fk.2 + w) % 4294967296
      sha1Rounds (i + 1) temp a (rotl32 30 b) c d ws

/-- Process one 64-byte block, updating the five-word chaining state. -/
def sha1Block (h : Nat × Nat × Nat × Nat × Nat) (block : List Nat) :
    Nat × Nat × Nat × Nat × Nat :=
  let ws := (sha1ExpandRev (wordsOfBytes block).reverse 64).reverse
  let r := sha1Rounds 0 h.1 h.2.1 h.2.2.1 h.2.2.2.1 h.2.2.2.2 ws
  ((h.1 + r.1) % 4294967296,
   (h.2.1 + r.2.1) % 4294967296,
   (h.2.2.1 + r.2.2.1) % 4294967296,
   (h.2.2.2.1 + r.2.2.2.1) % 4294967296,
   (h.2.2.2.2 + r.2.2.2.2) % 4294967296)

/-- Lower-case hex digit. -/
def hexDigit (n : Nat) : Char :=
  if n < 10 then Char.ofNat (48 + n) else Char.ofNat (87 + n)

/-- A 32-bit word as 8 lower-case hex characters. -/
def hex8 (w : Nat) : String :=
  ⟨(List.range 8).map (fun i => hexDigit ((w >>> (28 - 4 * i)) % 16))⟩

/-- `hashlib.sha1(bytes).hexdigest()`: the 40-character lower-case hex
digest of a byte list. -/
def sha1Hex (msg : List Nat) : String :=
  let h := (chunks64 (sha1Pad msg)).foldl sha1Block
    (0x67452301, 0xEFCDAB89, 0x98BADCFE, 0x10325476, 0xC3D2E1F0)
  hex8 h.1 ++ hex8 h.2.1 ++ hex8 h.2.2.1 ++ hex8 h.2.2.2.1 ++ hex8 h.2.2.2.2

/-- UTF-8 encoding of one character. -/
def utf8Char (c : Char) : List Nat :=
  let n := c.toNat
  if n < 0x80 then [n]
  else if n < 0x800 then [0xC0 ||| (n >>> 6), 0x80 ||| (n &&& 0x3F)]
  else if n < 0x10000 then
    [0xE0 ||| (n >>> 12), 0x80 ||| ((n >>> 6) &&& 0x3F), 0x80 ||| (n &&& 0x3F)]
  else
    [0xF0 ||| (n >>> 18), 0x80 ||| ((n >>> 12) &&& 0x3F),
     0x80 ||| ((n >>> 6) &&& 0x3F), 0x80 ||| (n &&& 0x3F)]

/-- Python `s.encode("utf-8")` as a byte list. -/
def utf8Bytes (s : String) : List Nat :=
  (s.data.map utf8Char).flatten

/-- FIPS 180 test vector: SHA-1 of `"abc"`. -/
example : sha1Hex (utf8Bytes "abc") = "a9993e364706816aba3e25717850c26c9cd0d89d" := by decide

/-- FIPS 180 test vector: SHA-1 of the empty message. -/
example : sha1Hex (utf8Bytes "") = "da39a3ee5e6b4b0d3255bfef95601890afd80709" := by decide

/-! ## `stable_id_tag` (src/main.py lines 69-81) -/

/-- `stable_id_tag`: the stable identifier tag of a card.  In the source the
function receives `vault_root` and `md_path` and computes
`rel = md_path.relative_to(vault_root).as_posix()`; the embedding receives
`rel` directly (path arithmetic is a file-system boundary).  The tag is
`"ankivert_id_"` followed by the first 12 hex characters of the SHA-1 digest
of `f"{rel}||{ordinal}||{question}"` encoded as UTF-8. -/
def stable_id_tag (rel question : String) (ordinal : Nat) : String :=
  let raw := rel ++ "||" ++ Nat.repr ordinal ++ "||" ++ question
  let digest := sha1Hex (utf8Bytes raw)
  "ankivert_id_" ++ ⟨digest.data.take 12⟩

/-! ## The `Card` record and the markup scanner (src/main.py lines 41-149) -/

/-- The `Card` dataclass of the source. -/
structure Card where
  deck : String
  front : String
  back : String
  tags : List String
  stable_tag : String
deriving DecidableEq, Repr, Inhabited

/-- The local state of the scanning loop of `extract_cards_from_markdown`:
the accumulated cards and the variables `q`, `a_lines`, `in_answer`,
`ordinal`. -/
structure ScanSt where
  cards : List Card
  q : Option String
  aLines : List String
  inAnswer : Bool
  ordinal : Nat
deriving DecidableEq, Repr

/-- The card flushed for a pending question `f` with collected answer lines
`als` at ordinal `o` — the body of the `cards.append(Card(...))` statement
of the source; empty `als` flushes nothing (`if q is not None and a_lines:`).
Both flush sites of the source (on a new `Q::` line and at end of file)
append exactly this. -/
def pendCards (rel deck : String) (baseTags : List String) (f : String)
    (als : List String) (o : Nat) : List Card :=
  if als = [] then []
  else
    let tag := stable_id_tag rel f o
    [{ deck := deck, front := f, back := pyStrip (joinNewline als),
       tags := baseTags ++ [tag], stable_tag := tag }]

/-- Flush the pending card of a scan state (no-op when `q` is `None`). -/
def flushCards (rel deck : String) (baseTags : List String) (st : ScanSt) : List Card :=
  match st.q with
  | none => st.cards
  | some f => st.cards ++ pendCards rel deck baseTags f st.aLines st.ordinal

/-- One iteration of the `for raw in text.splitlines()` loop of
`extract_cards_from_markdown` (`line = raw.rstrip("\n")` is the identity on
`splitlines` output, so the iteration acts on the line directly). -/
def scanLine (rel deck : String) (baseTags : List String) (st : ScanSt)
    (line : String) : ScanSt :=
  if pyStartsWith line "Q::" then
    { cards := flushCards rel deck baseTags st,
      q := some (pyStrip (strDrop line 3)),
      aLines := [], inAnswer := false, ordinal := st.ordinal + 1 }
  else if pyStartsWith line "A::" && st.q.isSome then
    let rest := pyLstrip (strDrop line 3)
    { st with inAnswer := true,
              aLines := st.aLines ++ (if rest = "" then [] else [rest]) }
  else if st.inAnswer && st.q.isSome then
    { st with aLines := st.aLines ++ [line] }
  else st

/-- `extract_cards_from_markdown`, as a function of the relative path of the
file (`rel`) and the list of its lines (`str.splitlines` output). -/
def extract_cards_from_markdown (rel deck : String) (baseTags : List String)
    (lines : List String) : List Card :=
  flushCards rel deck baseTags
    (lines.foldl (scanLine rel deck baseTags)
      { cards := [], q := none, aLines := [], inAnswer := false, ordinal := 0 })

/-! ## Specification-side view of the scanner

The spec describes the scanner segment-wise: the file is a prefix without
question markers followed by segments, each a `Q::` line and its body up to
the next `Q::` line; the `k`-th segment (counting from 1, in appearance
order) yields a card exactly when its collected answer lines are nonempty,
and that card's stable identifier uses position `k`.  The definitions below
follow those words; the refinement theorem proves them equal to
`extract_cards_from_markdown`. -/

/-- Dropping a prefix does not lengthen a list. -/
theorem lengthDropWhileLe {α : Type} (p : α → Bool) (l : List α) :
    (l.dropWhile p).length ≤ l.length := by
  induction l with
  | nil => simp [List.dropWhile]
  | cons a l ih =>
    cases hp : p a
    · simp [List.dropWhile, hp]
    · simp only [List.dropWhile, hp, List.length_cons]
      omega

/-- Split a line list into `(question line, body)` segments at `Q::` marker
lines, discarding any prefix before the first marker (structural recursion on
a fuel bound, so that the function reduces inside the kernel; each step
consumes at least one line, so `lines.length` fuel suffices). -/
def splitSegsGo : Nat → List String → List (String × List String)
  | _, [] => []
  | 0, _ :: _ => []
  | fuel + 1, l :: ls =>
      if pyStartsWith l "Q::" then
        (l, ls.takeWhile (fun x => !pyStartsWith x "Q::")) ::
          splitSegsGo fuel (ls.dropWhile (fun x => !pyStartsWith x "Q::"))
      else splitSegsGo fuel ls

/-- Split a line list into `(question line, body)` segments at `Q::` marker
lines, discarding any prefix before the first marker. -/
def splitSegs (lines : List String) : List (String × List String) :=
  splitSegsGo lines.length lines

/-- The fuel of `splitSegsGo` is irrelevant once it bounds the list length. -/
theorem splitSegsGo_fuel (fuel fuel' : Nat) (l : List String)
    (h : l.length ≤ fuel) (h' : l.length ≤ fuel') :
    splitSegsGo fuel l = splitSegsGo fuel' l := by
  induction fuel generalizing fuel' l with
  | zero =>
    cases l with
    | nil => cases fuel' <;> rfl
    | cons a as => simp at h
  | succ fuel ih =>
    cases l with
    | nil => cases fuel' <;> rfl
    | cons a as =>
      cases fuel' with
      | zero => simp at h'
      | succ fuel' =>
        simp only [splitSegsGo]
        by_cases hq : pyStartsWith a "Q::"
        · simp only [hq, if_true]
          have hd := lengthDropWhileLe (fun x => !pyStartsWith x "Q::") as
          have : (as.dropWhile (fun x => !pyStartsWith x "Q::")).length ≤ fuel := by
            simp only [List.length_cons] at h; omega
          have : (as.dropWhile (fun x => !pyStartsWith x "Q::")).length ≤ fuel' := by
            simp only [List.length_cons] at h'; omega
          exact congrArg _ (ih _ _ (by assumption) (by assumption))
        · simp only [hq, if_false]
          exact ih fuel' as (by simp only [List.length_cons] at h; omega)
            (by simp only [List.length_cons] at h'; omega)

@[simp] theorem splitSegs_nil : splitSegs [] = [] := rfl

/-- Unfolding equation of `splitSegs` at a `Q::` marker line. -/
theorem splitSegs_cons_q {l : String} (ls : List String)
    (hq : pyStartsWith l "Q::") :
    splitSegs (l :: ls) =
      (l, ls.takeWhile (fun x => !pyStartsWith x "Q::")) ::
        splitSegs (ls.dropWhile (fun x => !pyStartsWith x "Q::")) := by
  simp only [splitSegs, List.length_cons, splitSegsGo, hq, if_true]
  have hd := lengthDropWhileLe (fun x => !pyStartsWith x "Q::") ls
  exact congrArg _ (splitSegsGo_fuel _ _ _ (by omega) (by omega))

/-- Unfolding equation of `splitSegs` at a non-marker line. -/
theorem splitSegs_cons_nq {l : String} (ls : List String)
    (hq : ¬ pyStartsWith l "Q::") :
    splitSegs (l :: ls) = splitSegs ls := by
  simp only [splitSegs, List.length_cons, splitSegsGo, hq, if_false]
  exact splitSegsGo_fuel _ _ _ (by omega) (by omega)

/-- The answer lines collected from a segment body: an `A::` line contributes
its left-stripped remainder when nonempty (and switches answer mode on), and
every later line of the body contributes itself while answer mode is on. -/
def ansLines : Bool → List String → List String
  | _, [] => []
  | b, l :: ls =>
      if pyStartsWith l "A::" then
        let rest := pyLstrip (strDrop l 3)
        (if rest = "" then [] else [rest]) ++ ansLines true ls
      else if b then l :: ansLines b ls
      else ansLines b ls

/-- The cards of the segments `segs`, the first segment at position `k`. -/
def specFrom (rel deck : String) (baseTags : List String) :
    Nat → List (String × List String) → List Card
  | _, [] => []
  | k, (ql, body) :: segs =>
      pendCards rel deck baseTags (pyStrip (strDrop ql 3)) (ansLines false body) k ++
        specFrom rel deck baseTags (k + 1) segs

/-- Segment-wise description of the scanner, following the spec's words:
number the question markers from 1 in appearance order; marker `k` with
question text `q` and nonempty collected answer yields one card whose stable
identifier is `stable_id_tag rel q k`. -/
def extractCardsSpec (rel deck : String) (baseTags : List String)
    (lines : List String) : List Card :=
  specFrom rel deck baseTags 1 (splitSegs lines)

/-- The stripped question texts of the marker lines of a file, in order. -/
def segQuestions (lines : List String) : List String :=
  (splitSegs lines).map (fun s => pyStrip (strDrop s.1 3))

/-- The card produced by the `k`-th question marker (1-based) of a file, if
any. -/
def cardAtMarker (rel deck : String) (baseTags : List String)
    (lines : List String) (k : Nat) : Option Card :=
  ((splitSegs lines).get? (k - 1)).bind fun seg =>
    (pendCards rel deck baseTags (pyStrip (strDrop seg.1 3)) (ansLines false seg.2) k).head?

/-! ## Refinement: the scanner equals its segment-wise description -/

/-- `splitSegs` ignores a marker-free prefix. -/
theorem splitSegs_dropWhile (ls : List String) :
    splitSegs (ls.dropWhile (fun x => !pyStartsWith x "Q::")) = splitSegs ls := by
  induction ls with
  | nil => rfl
  | cons a as ih =>
    by_cases hq : pyStartsWith a "Q::"
    · simp [List.dropWhile_cons, hq]
    · rw [List.dropWhile_cons_of_pos (by simp [hq]), splitSegs_cons_nq as hq]
      exact ih

/-- Running the scan loop from a state with a pending question `f`, collected
answer lines `a`, answer mode `b` and ordinal `o`: the final flush yields the
cards already accumulated, then the pending card of `f` (whose answer also
collects from the marker-free prefix of the remaining lines, at ordinal `o`),
then the cards of the remaining segments numbered from `o + 1`. -/
theorem scan_from_question (rel deck : String) (t : List String) :
    ∀ (lines : List String) (cs : List Card) (f : String) (a : List String)
      (b : Bool) (o : Nat),
      flushCards rel deck t (lines.foldl (scanLine rel deck t)
          { cards := cs, q := some f, aLines := a, inAnswer := b, ordinal := o })
        = cs ++ pendCards rel deck t f
              (a ++ ansLines b (lines.takeWhile (fun x => !pyStartsWith x "Q::"))) o
            ++ specFrom rel deck t (o + 1) (splitSegs lines) := by
  intro lines
  induction lines with
  | nil =>
    intro cs f a b o
    simp [flushCards, ansLines, specFrom]
  | cons l ls ih =>
    intro cs f a b o
    by_cases hq : pyStartsWith l "Q::"
    · have hstep : scanLine rel deck t
          { cards := cs, q := some f, aLines := a, inAnswer := b, ordinal := o } l
          = { cards := cs ++ pendCards rel deck t f a o,
              q := some (pyStrip (strDrop l 3)), aLines := [], inAnswer := false,
              ordinal := o + 1 } := by
        simp [scanLine, hq, flushCards]
      rw [List.foldl_cons, hstep, ih]
      rw [List.takeWhile_cons_of_neg (by simp [hq]), splitSegs_cons_q ls hq]
      simp only [ansLines, List.append_nil, List.nil_append, specFrom,
        splitSegs_dropWhile, List.append_assoc]
    · by_cases ha : pyStartsWith l "A::"
      · have hstep : scanLine rel deck t
            { cards := cs, q := some f, aLines := a, inAnswer := b, ordinal := o } l
            = { cards := cs, q := some f,
                aLines := a ++ (if pyLstrip (strDrop l 3) = "" then []
                                else [pyLstrip (strDrop l 3)]),
                inAnswer := true, ordinal := o } := by
          simp [scanLine, hq, ha]
        rw [List.foldl_cons, hstep, ih]
        rw [List.takeWhile_cons_of_pos (by simp [hq])]
        have hans : ansLines b (l :: ls.takeWhile (fun x => !pyStartsWith x "Q::"))
            = (if pyLstrip (strDrop l 3) = "" then [] else [pyLstrip (strDrop l 3)])
                ++ ansLines true (ls.takeWhile (fun x => !pyStartsWith x "Q::")) := by
          simp [ansLines, ha]
        rw [hans, splitSegs_cons_nq ls hq]
        simp [List.append_assoc]
      · cases hb : b with
        | true =>
          have hstep : scanLine rel deck t
              { cards := cs, q := some f, aLines := a, inAnswer := true, ordinal := o } l
              = { cards := cs, q := some f, aLines := a ++ [l], inAnswer := true,
                  ordinal := o } := by
            simp [scanLine, hq, ha]
          rw [List.foldl_cons, hstep, ih]
          rw [List.takeWhile_cons_of_pos (by simp [hq])]
          have hans : ansLines true (l :: ls.takeWhile (fun x => !pyStartsWith x "Q::"))
              = l :: ansLines true (ls.takeWhile (fun x => !pyStartsWith x "Q::")) := by
            simp [ansLines, ha]
          rw [hans, splitSegs_cons_nq ls hq]
          simp [List.append_assoc]
        | false =>
          have hstep : scanLine rel deck t
              { cards := cs, q := some f, aLines := a, inAnswer := false, ordinal := o } l
              = { cards := cs, q := some f, aLines := a, inAnswer := false,
                  ordinal := o } := by
            simp [scanLine, hq, ha]
          rw [List.foldl_cons, hstep, ih]
          rw [List.takeWhile_cons_of_pos (by simp [hq])]
          have hans : ansLines false (l :: ls.takeWhile (fun x => !pyStartsWith x "Q::"))
              = ansLines false (ls.takeWhile (fun x => !pyStartsWith x "Q::")) := by
            simp [ansLines, ha]
          rw [hans, splitSegs_cons_nq ls hq]

/-- Running the scan loop from a state with no pending question (`q = None`):
lines before the first `Q::` marker are ignored, and the segments that follow
are numbered from `o + 1`. -/
theorem scan_from_start (rel deck : String) (t : List String) :
    ∀ (lines : List String) (cs : List Card) (o : Nat),
      flushCards rel deck t (lines.foldl (scanLine rel deck t)
          { cards := cs, q := none, aLines := [], inAnswer := false, ordinal := o })
        = cs ++ specFrom rel deck t (o + 1) (splitSegs lines) := by
  intro lines
  induction lines with
  | nil => intro cs o; simp [flushCards, specFrom]
  | cons l ls ih =>
    intro cs o
    by_cases hq : pyStartsWith l "Q::"
    · have hstep : scanLine rel deck t
          { cards := cs, q := none, aLines := [], inAnswer := false, ordinal := o } l
          = { cards := cs, q := some (pyStrip (strDrop l 3)), aLines := [],
              inAnswer := false, ordinal := o + 1 } := by
        simp [scanLine, hq, flushCards]
      rw [List.foldl_cons, hstep, scan_from_question]
      rw [splitSegs_cons_q ls hq]
      simp only [specFrom, splitSegs_dropWhile, List.nil_append, List.append_assoc]
    · have hstep : scanLine rel deck t
          { cards := cs, q := none, aLines := [], inAnswer := false, ordinal := o } l
          = { cards := cs, q := none, aLines := [], inAnswer := false, ordinal := o } := by
        simp [scanLine, hq]
      rw [List.foldl_cons, hstep, ih, splitSegs_cons_nq ls hq]

/-- Master refinement lemma: the scanner of the source equals its segment-wise
specification-side description. -/
theorem extract_eq_spec (rel deck : String) (t : List String) (lines : List String) :
    extract_cards_from_markdown rel deck t lines = extractCardsSpec rel deck t lines := by
  have h := scan_from_start rel deck t lines [] 0
  simpa [extract_cards_from_markdown, extractCardsSpec] using h

/-! ## Helper lemmas about the spec-side view -/

/-- The member of a singleton `head?`. -/
theorem mem_of_head_some {α : Type} {l : List α} {a : α} (h : l.head? = some a) :
    a ∈ l := by
  cases l with
  | nil => simp at h
  | cons x xs => simp at h; simp [h]

/-- A card flushed by `pendCards` carries the stable tag as last element of
its tags, and is only flushed from a nonempty answer. -/
theorem pendCards_mem {rel deck : String} {t : List String} {f : String}
    {als : List String} {o : Nat} {c : Card}
    (h : c ∈ pendCards rel deck t f als o) :
    c = { deck := deck, front := f, back := pyStrip (joinNewline als),
          tags := t ++ [stable_id_tag rel f o],
          stable_tag := stable_id_tag rel f o }
      ∧ als ≠ [] := by
  unfold pendCards at h
  by_cases hals : als = []
  · simp [hals] at h
  · simp [hals] at h
    exact ⟨h, hals⟩

/-- Every card of `specFrom` comes from some `pendCards` flush. -/
theorem mem_specFrom {rel deck : String} {t : List String} :
    ∀ (segs : List (String × List String)) (k : Nat) (c : Card),
      c ∈ specFrom rel deck t k segs →
      ∃ f als o, c ∈ pendCards rel deck t f als o := by
  intro segs
  induction segs with
  | nil => intro k c h; simp [specFrom] at h
  | cons s ss ih =>
    intro k c h
    obtain ⟨ql, body⟩ := s
    simp only [specFrom, List.mem_append] at h
    rcases h with h | h
    · exact ⟨_, _, _, h⟩
    · exact ih _ _ h

/-- The card of the segment at index `i` belongs to `specFrom` started at any
position `start`. -/
theorem specFrom_mem_of_get {rel deck : String} {t : List String} :
    ∀ (segs : List (String × List String)) (start i : Nat)
      (seg : String × List String) (c : Card),
      segs.get? i = some seg →
      (pendCards rel deck t (pyStrip (strDrop seg.1 3)) (ansLines false seg.2)
          (start + i)).head? = some c →
      c ∈ specFrom rel deck t start segs := by
  intro segs
  induction segs with
  | nil => intro start i seg c h _; simp at h
  | cons s ss ih =>
    intro start i seg c hget hhead
    obtain ⟨ql, body⟩ := s
    cases i with
    | zero =>
      simp only [List.get?] at hget
      injection hget with hseg
      subst hseg
      simp only [Nat.add_zero] at hhead
      simp only [specFrom, List.mem_append]
      exact Or.inl (mem_of_head_some hhead)
    | succ i =>
      simp only [List.get?] at hget
      have harith : start + (i + 1) = (start + 1) + i := by omega
      rw [harith] at hhead
      simp only [specFrom, List.mem_append]
      exact Or.inr (ih (start + 1) i seg c hget hhead)

/-- A line starting with `A::` does not start with `Q::`. -/
theorem a_not_q {l : String} (h : pyStartsWith l "A::" = true) :
    pyStartsWith l "Q::" = false := by
  unfold pyStartsWith at h ⊢
  have hA : ("A::").data = ['A', ':', ':'] := rfl
  have hQ : ("Q::").data = ['Q', ':', ':'] := rfl
  rw [hA] at h
  rw [hQ]
  cases hd : l.data with
  | nil => rw [hd] at h; simp [List.isPrefixOf] at h
  | cons c cs =>
    rw [hd] at h
    rw [List.isPrefixOf_cons₂] at h ⊢
    have hc : c = 'A' := by
      rcases Bool.and_eq_true_iff.mp h with ⟨h1, _⟩
      exact (beq_iff_eq.mp h1).symm
    subst hc
    simp

/-- On lines free of `A::` markers, answer mode collects every line. -/
theorem ansLines_true_all {mid : List String}
    (h : ∀ l ∈ mid, ¬ pyStartsWith l "A::" = true) : ansLines true mid = mid := by
  induction mid with
  | nil => rfl
  | cons l ls ih =>
    have hl : pyStartsWith l "A::" = false := by
      have := h l (List.mem_cons_self l ls); simpa using this
    simp [ansLines, hl]
    exact ih fun x hx => h x (List.mem_cons_of_mem _ hx)

/-- Scanning lines that contain no `A::` marker from a state with empty
collected answer and answer mode off accumulates no card: every flush
(at a `Q::` line or the final one) flushes an empty answer. -/
theorem scan_no_answer (rel deck : String) (t : List String) :
    ∀ (post : List String), (∀ l ∈ post, ¬ pyStartsWith l "A::" = true) →
    ∀ (cs : List Card) (q : Option String) (o : Nat),
      flushCards rel deck t (post.foldl (scanLine rel deck t)
          { cards := cs, q := q, aLines := [], inAnswer := false, ordinal := o })
        = cs := by
  intro post
  induction post with
  | nil =>
    intro _ cs q o
    cases q <;> simp [flushCards, pendCards]
  | cons l ls ih =>
    intro h cs q o
    have hA := h l (List.mem_cons_self l ls)
    have hrest := fun x hx => h x (List.mem_cons_of_mem l hx)
    by_cases hq : pyStartsWith l "Q::"
    · have hstep : scanLine rel deck t
          { cards := cs, q := q, aLines := [], inAnswer := false, ordinal := o } l
          = { cards := cs, q := some (pyStrip (strDrop l 3)), aLines := [],
              inAnswer := false, ordinal := o + 1 } := by
        cases q <;> simp [scanLine, hq, flushCards, pendCards]
      rw [List.foldl_cons, hstep]
      exact ih hrest cs _ _
    · have hstep : scanLine rel deck t
          { cards := cs, q := q, aLines := [], inAnswer := false, ordinal := o } l
          = { cards := cs, q := q, aLines := [], inAnswer := false, ordinal := o } := by
        simp [scanLine, hq, hA]
      rw [List.foldl_cons, hstep]
      exact ih hrest cs _ _

/-! ## Claim theorems about the scanner -/

/-- C4: the scanner produces its cards as an ordered sequence: it equals the
segment-wise description that walks the question markers of the file in
appearance order, numbering them 1, 2, 3, …, and emits for marker `k` (when
its collected answer is nonempty) one card whose stable identifier is
`stable_id_tag rel question k` — so the appearance-order position is exactly
the number used in the stable identifier. -/
theorem scanner_orders_and_numbers_cards (rel deck : String) (t : List String)
    (lines : List String) :
    extract_cards_from_markdown rel deck t lines = extractCardsSpec rel deck t lines :=
  extract_eq_spec rel deck t lines

/-- C3: a `Q::` marker followed (up to end of input) by no `A::` marker line
produces no card — the file's cards are exactly those of the part before the
marker — and in particular a file that is just such a marker and its
answer-free tail yields zero cards. -/
theorem question_without_answer_yields_no_card (rel deck : String)
    (t : List String) (qline : String) (post pre : List String)
    (hq : pyStartsWith qline "Q::" = true)
    (hpost : ∀ l ∈ post, ¬ pyStartsWith l "A::" = true) :
    extract_cards_from_markdown rel deck t (pre ++ qline :: post)
        = extract_cards_from_markdown rel deck t pre
      ∧ extract_cards_from_markdown rel deck t (qline :: post) = [] := by
  have hgen : ∀ pre' : List String,
      extract_cards_from_markdown rel deck t (pre' ++ qline :: post)
        = extract_cards_from_markdown rel deck t pre' := by
    intro pre'
    unfold extract_cards_from_markdown
    rw [List.foldl_append, List.foldl_cons]
    have hstep : ∀ S : ScanSt, scanLine rel deck t S qline =
        { cards := flushCards rel deck t S,
          q := some (pyStrip (strDrop qline 3)),
          aLines := [], inAnswer := false, ordinal := S.ordinal + 1 } := by
      intro S; simp [scanLine, hq]
    rw [hstep]
    exact scan_no_answer rel deck t post hpost _ _ _
  exact ⟨hgen pre, by simpa using hgen []⟩

/-- Witness for the C3 theorem at a concrete file. -/
theorem question_without_answer_yields_no_card_witness :
    (pyStartsWith "Q:: orphan" "Q::" = true)
    ∧ (∀ l ∈ ["note text"], ¬ pyStartsWith l "A::" = true)
    ∧ (extract_cards_from_markdown "n.md" "d" ["c"]
          (["Q:: a", "A:: b"] ++ "Q:: orphan" :: ["note text"])
        = extract_cards_from_markdown "n.md" "d" ["c"] ["Q:: a", "A:: b"]
      ∧ extract_cards_from_markdown "n.md" "d" ["c"] ("Q:: orphan" :: ["note text"]) = []) :=
  ⟨by decide, by decide,
    question_without_answer_yields_no_card "n.md" "d" ["c"] "Q:: orphan"
      ["note text"] ["Q:: a", "A:: b"] (by decide) (by decide)⟩

/-- C9: every card emitted by the scanner has tags `base_tags + [tag]` where
`tag` is its own stable identifier tag — so the stable tag is always a member
of the note's tags. -/
theorem card_tags_end_with_stable_tag (rel deck : String) (t : List String)
    (lines : List String) (c : Card)
    (hc : c ∈ extract_cards_from_markdown rel deck t lines) :
    c.tags = t ++ [c.stable_tag] := by
  rw [extract_eq_spec] at hc
  simp only [extractCardsSpec] at hc
  obtain ⟨f, als, o, hmem⟩ := mem_specFrom (splitSegs lines) 1 c hc
  obtain ⟨hc', -⟩ := pendCards_mem hmem
  subst hc'
  rfl

/-- Witness for the C9 theorem at a concrete file. -/
theorem card_tags_end_with_stable_tag_witness :
    ((extract_cards_from_markdown "n.md" "d" ["cls"] ["Q:: q", "A:: ans"]).headI
        ∈ extract_cards_from_markdown "n.md" "d" ["cls"] (["Q:: q", "A:: ans"] : List String))
    ∧ ((extract_cards_from_markdown "n.md" "d" ["cls"] ["Q:: q", "A:: ans"]).headI).tags
        = ["cls"] ++
          [((extract_cards_from_markdown "n.md" "d" ["cls"] ["Q:: q", "A:: ans"]).headI).stable_tag] :=
  ⟨by decide,
    card_tags_end_with_stable_tag "n.md" "d" ["cls"] ["Q:: q", "A:: ans"]
      ((extract_cards_from_markdown "n.md" "d" ["cls"] ["Q:: q", "A:: ans"]).headI)
      (by decide)⟩

/-- C10: a question marker, an `A::` marker with nothing after it, and a
whitespace-only line produce a card whose answer text is the empty string —
the card is emitted, not dropped. -/
theorem empty_answer_card_is_emitted :
    extract_cards_from_markdown "n.md" "d" ["cls"] ["Q:: q", "A::", " "]
      = [{ deck := "d", front := "q", back := "",
           tags := ["cls", stable_id_tag "n.md" "q" 1],
           stable_tag := stable_id_tag "n.md" "q" 1 }] := by decide

/-- C6 counterexample: for the file `["Q:: q", "A:: a", ""]` the produced
card's answer text is `"a"`, while the content following the answer marker
joined with the subsequent (empty) line is `" a\n"` (or `"a\n"` after
left-stripping the marker content) — the code strips the joined text, so the
claim's description of the answer text is not what the code produces. -/
theorem answer_text_claim_counterexample :
    (extract_cards_from_markdown "n.md" "d" [] ["Q:: q", "A:: a", ""]).map Card.back = ["a"]
    ∧ joinNewline [strDrop "A:: a" 3, ""] = " a\n"
    ∧ joinNewline [pyLstrip (strDrop "A:: a" 3), ""] = "a\n"
    ∧ ("a" : String) ≠ " a\n"
    ∧ ("a" : String) ≠ "a\n" := by decide

/-- Indexed version of `mem_specFrom`: every card of `specFrom` is the flush
of the segment at some index, at the matching position. -/
theorem mem_specFrom_get {rel deck : String} {t : List String} :
    ∀ (segs : List (String × List String)) (start : Nat) (c : Card),
      c ∈ specFrom rel deck t start segs →
      ∃ i seg, segs.get? i = some seg
        ∧ c ∈ pendCards rel deck t (pyStrip (strDrop seg.1 3))
              (ansLines false seg.2) (start + i) := by
  intro segs
  induction segs with
  | nil => intro start c h; simp [specFrom] at h
  | cons s ss ih =>
    intro start c h
    obtain ⟨ql, body⟩ := s
    simp only [specFrom, List.mem_append] at h
    rcases h with h | h
    · exact ⟨0, (ql, body), rfl, by simpa using h⟩
    · obtain ⟨i, seg, hget, hmem⟩ := ih (start + 1) c h
      refine ⟨i + 1, seg, by simpa using hget, ?_⟩
      rw [show start + (i + 1) = (start + 1) + i from by omega]
      exact hmem

/-- C6 (amended): for every input file, every produced card takes its answer
text from the body of its question segment — the lines strictly between its
question marker line and the next question marker line or the end of input
(`splitSegs`) — by the collection rule of the code (`ansLines`): collection
starts at the first answer marker line of the body; each answer marker line
contributes its left-whitespace-stripped remainder, and only when that
remainder is nonempty; every other line after collection has started
contributes itself verbatim; the collected lines are joined with newlines
and the joined text is stripped of surrounding whitespace.  The card exists
only when the collection is nonempty, and its stable tag records the
segment's position. -/
theorem answer_text_amended (rel deck : String) (t : List String)
    (lines : List String) (c : Card)
    (hc : c ∈ extract_cards_from_markdown rel deck t lines) :
    ∃ k seg, 1 ≤ k
      ∧ (splitSegs lines).get? (k - 1) = some seg
      ∧ c.front = pyStrip (strDrop seg.1 3)
      ∧ c.back = pyStrip (joinNewline (ansLines false seg.2))
      ∧ ansLines false seg.2 ≠ []
      ∧ c.stable_tag = stable_id_tag rel c.front k := by
  rw [extract_eq_spec] at hc
  simp only [extractCardsSpec] at hc
  obtain ⟨i, seg, hget, hmem⟩ := mem_specFrom_get (splitSegs lines) 1 c hc
  obtain ⟨hcrec, hne⟩ := pendCards_mem hmem
  refine ⟨1 + i, seg, by omega, ?_, ?_, ?_, hne, ?_⟩
  · rw [show 1 + i - 1 = i from by omega]
    exact hget
  · rw [hcrec]
  · rw [hcrec]
  · rw [hcrec]

/-- Witness for the amended C6 theorem, at a file whose first answer block
contains a second answer marker line and is cut off by a second question
marker: the second marker line contributes its stripped remainder `"b"`, the
plain line contributes itself, and the first card's answer text is
`"a\nb\nx"`. -/
theorem answer_text_amended_witness :
    ((extract_cards_from_markdown "n.md" "d" ["c"]
        ["Q:: q", "A:: a", "A:: b", "x", "Q:: q2", "A:: y"]).map Card.back
      = ["a\nb\nx", "y"])
    ∧ ((extract_cards_from_markdown "n.md" "d" ["c"]
          ["Q:: q", "A:: a", "A:: b", "x", "Q:: q2", "A:: y"]).headI
        ∈ extract_cards_from_markdown "n.md" "d" ["c"]
            (["Q:: q", "A:: a", "A:: b", "x", "Q:: q2", "A:: y"] : List String))
    ∧ ∃ k seg, 1 ≤ k
        ∧ (splitSegs ["Q:: q", "A:: a", "A:: b", "x", "Q:: q2", "A:: y"]).get? (k - 1)
            = some seg
        ∧ ((extract_cards_from_markdown "n.md" "d" ["c"]
              ["Q:: q", "A:: a", "A:: b", "x", "Q:: q2", "A:: y"]).headI).front
            = pyStrip (strDrop seg.1 3)
        ∧ ((extract_cards_from_markdown "n.md" "d" ["c"]
              ["Q:: q", "A:: a", "A:: b", "x", "Q:: q2", "A:: y"]).headI).back
            = pyStrip (joinNewline (ansLines false seg.2))
        ∧ ansLines false seg.2 ≠ []
        ∧ ((extract_cards_from_markdown "n.md" "d" ["c"]
              ["Q:: q", "A:: a", "A:: b", "x", "Q:: q2", "A:: y"]).headI).stable_tag
            = stable_id_tag "n.md"
                ((extract_cards_from_markdown "n.md" "d" ["c"]
                  ["Q:: q", "A:: a", "A:: b", "x", "Q:: q2", "A:: y"]).headI).front k :=
  ⟨by decide, by decide,
    answer_text_amended "n.md" "d" ["c"]
      ["Q:: q", "A:: a", "A:: b", "x", "Q:: q2", "A:: y"]
      ((extract_cards_from_markdown "n.md" "d" ["c"]
        ["Q:: q", "A:: a", "A:: b", "x", "Q:: q2", "A:: y"]).headI)
      (by decide)⟩

/-- C1: the stable identifier of the card produced by the `k`-th question
marker of a file is `stable_id_tag rel question k` — a function of exactly
the relative path, the marker position, and the question text.  In
particular, two files with the same marker questions (any change confined to
answer text, deck or base tags) give the card of marker `k` the same stable
identifier; and the card belongs to the scanner output. -/
theorem stable_id_depends_only_on_position_and_question
    (rel deck deck' : String) (t t' : List String) (L L' : List String)
    (k : Nat) (c c' : Card)
    (hk : 1 ≤ k)
    (hq : segQuestions L = segQuestions L')
    (h1 : cardAtMarker rel deck t L k = some c)
    (h2 : cardAtMarker rel deck' t' L' k = some c') :
    c.stable_tag = c'.stable_tag
    ∧ c.stable_tag = stable_id_tag rel c.front k
    ∧ c ∈ extract_cards_from_markdown rel deck t L := by
  unfold cardAtMarker at h1 h2
  cases hseg : (splitSegs L).get? (k - 1) with
  | none => rw [hseg] at h1; simp at h1
  | some seg =>
  cases hseg' : (splitSegs L').get? (k - 1) with
  | none => rw [hseg'] at h2; simp at h2
  | some seg' =>
  rw [hseg] at h1
  rw [hseg'] at h2
  simp only [Option.some_bind] at h1 h2
  obtain ⟨hcrec, -⟩ := pendCards_mem (mem_of_head_some h1)
  obtain ⟨hcrec', -⟩ := pendCards_mem (mem_of_head_some h2)
  have hqk : pyStrip (strDrop seg.1 3) = pyStrip (strDrop seg'.1 3) := by
    have hmap : (segQuestions L).get? (k - 1) = (segQuestions L').get? (k - 1) := by
      rw [hq]
    have hs1 := hseg
    have hs2 := hseg'
    rw [List.get?_eq_getElem?] at hs1 hs2
    simp only [segQuestions, List.get?_eq_getElem?, List.getElem?_map] at hmap
    rw [hs1, hs2] at hmap
    simpa using hmap
  refine ⟨?_, ?_, ?_⟩
  · rw [hcrec, hcrec', hqk]
  · rw [hcrec]
  · have harith : k = 1 + (k - 1) := by omega
    rw [extract_eq_spec]
    simp only [extractCardsSpec]
    exact specFrom_mem_of_get (splitSegs L) 1 (k - 1) seg c hseg
      (by rw [← harith]; exact h1)

/-- Witness for the C1 theorem: the same file with two different answers,
decks and base tag lists; marker 1 receives the same stable identifier. -/
theorem stable_id_depends_only_on_position_and_question_witness :
    ((1 : Nat) ≤ 1)
    ∧ segQuestions ["Q:: q", "A:: x"] = segQuestions ["Q:: q", "A:: y", "more"]
    ∧ cardAtMarker "n.md" "d" [] ["Q:: q", "A:: x"] 1
        = some ((cardAtMarker "n.md" "d" [] ["Q:: q", "A:: x"] 1).getD default)
    ∧ cardAtMarker "n.md" "d2" ["b"] ["Q:: q", "A:: y", "more"] 1
        = some ((cardAtMarker "n.md" "d2" ["b"] ["Q:: q", "A:: y", "more"] 1).getD default)
    ∧ (((cardAtMarker "n.md" "d" [] ["Q:: q", "A:: x"] 1).getD default).stable_tag
        = ((cardAtMarker "n.md" "d2" ["b"] ["Q:: q", "A:: y", "more"] 1).getD default).stable_tag
      ∧ ((cardAtMarker "n.md" "d" [] ["Q:: q", "A:: x"] 1).getD default).stable_tag
        = stable_id_tag "n.md" ((cardAtMarker "n.md" "d" [] ["Q:: q", "A:: x"] 1).getD default).front 1
      ∧ ((cardAtMarker "n.md" "d" [] ["Q:: q", "A:: x"] 1).getD default)
          ∈ extract_cards_from_markdown "n.md" "d" [] (["Q:: q", "A:: x"] : List String)) :=
  ⟨by decide, by decide, by decide, by decide,
    stable_id_depends_only_on_position_and_question "n.md" "d" "d2" [] ["b"]
      ["Q:: q", "A:: x"] ["Q:: q", "A:: y", "more"] 1
      ((cardAtMarker "n.md" "d" [] ["Q:: q", "A:: x"] 1).getD default)
      ((cardAtMarker "n.md" "d2" ["b"] ["Q:: q", "A:: y", "more"] 1).getD default)
      (by decide) (by decide) (by decide) (by decide)⟩

/-! ## The AnkiConnect response check (`ankiconnect`, src/main.py lines 50-61) -/

/-- The response received by one `requests.post` call: HTTP status and the
decoded JSON body's `error` and `result` fields (either may be absent). -/
structure AnkiResponse (α : Type) where
  status : Nat
  error : Option String
  result : Option α
deriving DecidableEq

/-- The exceptions `ankiconnect` can raise: `requests.HTTPError` from
`raise_for_status`, or the `RuntimeError` for an embedded error field. -/
inductive AnkiFailure where
  | httpError : Nat → AnkiFailure
  | connectError : String → String → AnkiFailure
deriving DecidableEq

/-- The `ankiconnect` helper's handling of a received response:
`r.raise_for_status()` raises `HTTPError` exactly for client-error (4xx) and
server-error (5xx) statuses (the documented behaviour of the `requests`
library); then a truthy `error` field of the JSON body (a nonempty string)
raises `RuntimeError`; otherwise the `result` field is returned. -/
def ankiconnect {α : Type} (action : String) (resp : AnkiResponse α) :
    Except AnkiFailure (Option α) :=
  if 400 ≤ resp.status ∧ resp.status < 600 then
    Except.error (AnkiFailure.httpError resp.status)
  else
    match resp.error with
    | some msg =>
        if msg ≠ "" then Except.error (AnkiFailure.connectError action msg)
        else Except.ok resp.result
    | none => Except.ok resp.result

/-- C8 counterexample: a response with the non-2xx status 300 and no error
field is returned successfully — `raise_for_status` raises only for 4xx/5xx,
so this failing-per-the-claim call does not raise. -/
theorem ankiconnect_non2xx_counterexample :
    ankiconnect "findNotes"
        ({ status := 300, error := none, result := some 0 } : AnkiResponse Nat)
      = Except.ok (some 0)
    ∧ ¬ ((200 : Nat) ≤ 300 ∧ (300 : Nat) ≤ 299) :=
  ⟨rfl, by decide⟩

/-- C8 (amended): a remote call raises — terminating the run, as no caller
catches — exactly when the HTTP status is a 4xx/5xx error or the embedded
error field is a nonempty string.  (1xx/3xx statuses, though not 2xx, do not
raise.) -/
theorem ankiconnect_raises_iff {α : Type} (action : String) (resp : AnkiResponse α) :
    (∃ e, ankiconnect action resp = Except.error e)
      ↔ ((400 ≤ resp.status ∧ resp.status < 600)
          ∨ ∃ m, resp.error = some m ∧ m ≠ "") := by
  unfold ankiconnect
  by_cases hs : 400 ≤ resp.status ∧ resp.status < 600
  · simp [hs]
  · rw [if_neg hs]
    cases herr : resp.error with
    | none => simp [hs, herr]
    | some m =>
      by_cases hm : m = ""
      · simp [hs, herr, hm]
      · simp [hs, herr, hm]

/-! ## The remote state and the synchronization client
(src/main.py lines 64-67, 162-210, 252-260)

The remote flashcard application is external; its state is modelled from the
spec (section 6: deck creation, note search-by-label, note creation, note
field update, label addition).  The client functions below it are translated
from the source; every issued call is also recorded in a trace. -/

/-- A note as stored by the remote application. -/
structure ANote where
  id : Nat
  deck : String
  front : String
  back : String
  tags : List String
deriving DecidableEq, Repr

/-- Modelled from the spec: the remote application's state — existing decks,
stored notes, and the next fresh note id. -/
structure Remote where
  decks : List String
  notes : List ANote
  nextId : Nat
deriving DecidableEq, Repr

/-- One HTTP call issued to the remote application. -/
inductive RCall where
  | createDeck : String → RCall
  | findNotes : String → RCall
  | addNote : String → String → String → List String → RCall
  | updateNoteFields : Nat → String → String → RCall
  | addTags : List Nat → List String → RCall
deriving DecidableEq, Repr

/-- Does a call create a note? -/
def isAddNote : RCall → Bool
  | RCall.addNote _ _ _ _ => true
  | _ => false

/-- Modelled from the spec: `createDeck` — idempotent deck creation. -/
def createDeckOp (d : String) (st : Remote) : Remote :=
  { st with decks := if st.decks.contains d then st.decks else st.decks ++ [d] }

/-- Modelled from the spec: `findNotes` with query `tag:<tag>` — the ids of
the stored notes carrying the tag, in storage order. -/
def findNotesByTag (tag : String) (st : Remote) : List Nat :=
  (st.notes.filter (fun n => n.tags.contains tag)).map ANote.id

/-- Modelled from the spec: `addNote` — append a fresh note, returning its id. -/
def addNoteOp (deck front back : String) (tags : List String) (st : Remote) :
    Remote × Nat :=
  ({ st with
      notes := st.notes ++ [{ id := st.nextId, deck := deck, front := front,
                              back := back, tags := tags }],
      nextId := st.nextId + 1 },
   st.nextId)

/-- Modelled from the spec: `updateNoteFields` — replace the fields of the
note with the given id. -/
def updateNoteFieldsOp (nid : Nat) (front back : String) (st : Remote) : Remote :=
  { st with
      notes := st.notes.map (fun n =>
        if n.id = nid then { n with front := front, back := back } else n) }

/-- Modelled from the spec: `addTags` — add the given labels (those not
already present) to the notes with the given ids. -/
def addTagsOp (nids : List Nat) (tags : List String) (st : Remote) : Remote :=
  { st with
      notes := st.notes.map (fun n =>
        if nids.contains n.id then
          { n with tags := n.tags ++ tags.filter (fun t => !n.tags.contains t) }
        else n) }

/-- `ensure_deck`: one `createDeck` call ("safe to call even if it already
exists"). -/
def ensure_deck (d : String) (st : Remote) : Remote × List RCall :=
  (createDeckOp d st, [RCall.createDeck d])

/-- `find_note_id_by_tag`: one `findNotes` call; "if multiple, we just use
the first".  Returns the note id, and separately the issued call is recorded
by the caller. -/
def find_note_id_by_tag (tag : String) (st : Remote) : Option Nat :=
  match findNotesByTag tag st with
  | [] => none
  | i :: _ => some i

/-- `add_or_update_basic_note`: look up the stable tag (skipped entirely in
dry-run), then either add a new note with the card's fields and tags, or
update the existing note's fields and re-apply the tags.  Returns the new
remote state and the trace of issued calls (empty in dry-run). -/
def add_or_update_basic_note (card : Card) (dryRun : Bool) (st : Remote) :
    Remote × List RCall :=
  let found : Option Nat × List RCall :=
    if dryRun then (none, [])
    else (find_note_id_by_tag card.stable_tag st,
          [RCall.findNotes ("tag:" ++ card.stable_tag)])
  match found.1 with
  | none =>
      if dryRun then (st, found.2)
      else
        let res := addNoteOp card.deck card.front card.back card.tags st
        (res.1, found.2 ++ [RCall.addNote card.deck card.front card.back card.tags])
  | some nid =>
      if dryRun then (st, found.2)
      else
        let st1 := updateNoteFieldsOp nid card.front card.back st
        let st2 := addTagsOp [nid] card.tags st1
        (st2, found.2 ++ [RCall.updateNoteFields nid card.front card.back,
                          RCall.addTags [nid] card.tags])

/-- The `for c in all_cards: add_or_update_basic_note(c, dry_run)` loop of
`main`. -/
def syncNotesLoop (dryRun : Bool) : List Card → Remote → Remote × List RCall
  | [], st => (st, [])
  | c :: cs, st =>
      let r1 := add_or_update_basic_note c dryRun st
      let r2 := syncNotesLoop dryRun cs r1.1
      (r2.1, r1.2 ++ r2.2)

/-- The `for d in decks: ensure_deck(d)` loop of `main`. -/
def ensureDecksLoop : List String → Remote → Remote × List RCall
  | [], st => (st, [])
  | d :: ds, st =>
      let r1 := ensure_deck d st
      let r2 := ensureDecksLoop ds r1.1
      (r2.1, r1.2 ++ r2.2)

/-- Insert into a sorted list of strings. -/
def insertSorted (s : String) : List String → List String
  | [] => [s]
  | x :: xs => if s ≤ x then s :: x :: xs else x :: insertSorted s xs

/-- `sorted({c.deck for c in all_cards})`: the distinct decks, sorted. -/
def sortedUniqueDecks (cards : List Card) : List String :=
  ((cards.map Card.deck).eraseDups).foldr insertSorted []

/-- The sync phase of `main` (src/main.py lines 252-260): create the decks
(skipped in dry-run), then add or update every card in order. -/
def runSync (dryRun : Bool) (cards : List Card) (st : Remote) :
    Remote × List RCall :=
  let pre : Remote × List RCall :=
    if dryRun then (st, []) else ensureDecksLoop (sortedUniqueDecks cards) st
  let res := syncNotesLoop dryRun cards pre.1
  (res.1, pre.2 ++ res.2)

/-! ## Claim theorems about the synchronization client -/

/-- C7: in dry-run mode a sync run issues no remote call at all (in
particular no deck-creation, note-creation, note-field-update or
label-addition call) and leaves the remote state unchanged. -/
theorem dry_run_performs_no_remote_mutation (cards : List Card) (st : Remote) :
    runSync true cards st = (st, []) := by
  have hnote : ∀ (c : Card) (st' : Remote),
      add_or_update_basic_note c true st' = (st', []) := by
    intro c st'; rfl
  have hloop : ∀ (cs : List Card) (st' : Remote),
      syncNotesLoop true cs st' = (st', []) := by
    intro cs
    induction cs with
    | nil => intro st'; rfl
    | cons c cs ih => intro st'; simp [syncNotesLoop, hnote, ih]
  simp [runSync, hloop]

/-- `contains` agrees with membership for strings. -/
theorem contains_eq_mem {l : List String} {a : String} :
    l.contains a = true ↔ a ∈ l :=
  List.elem_iff

/-- Some remote note carries the tag. -/
def hasNoteWithTag (tag : String) (st : Remote) : Prop :=
  ∃ n ∈ st.notes, tag ∈ n.tags

/-- A successful tag lookup means some note carries the tag. -/
theorem hasTag_of_find_some {tag : String} {st : Remote} {i : Nat}
    (h : find_note_id_by_tag tag st = some i) : hasNoteWithTag tag st := by
  unfold find_note_id_by_tag at h
  cases hfind : findNotesByTag tag st with
  | nil => rw [hfind] at h; simp at h
  | cons j js =>
    unfold findNotesByTag at hfind
    cases hfil : st.notes.filter (fun n => n.tags.contains tag) with
    | nil => rw [hfil] at hfind; simp at hfind
    | cons m ms =>
      have hm : m ∈ st.notes.filter (fun n => n.tags.contains tag) := by
        rw [hfil]; exact List.mem_cons_self m ms
      have hmf := List.mem_filter.mp hm
      exact ⟨m, hmf.1, contains_eq_mem.mp hmf.2⟩

/-- If some note carries the tag, the lookup succeeds. -/
theorem find_isSome_of_hasTag {tag : String} {st : Remote}
    (h : hasNoteWithTag tag st) : (find_note_id_by_tag tag st).isSome := by
  obtain ⟨n, hn, ht⟩ := h
  unfold find_note_id_by_tag
  cases hfind : findNotesByTag tag st with
  | cons j js => simp
  | nil =>
    unfold findNotesByTag at hfind
    rw [List.map_eq_nil_iff] at hfind
    have hnmem : n ∈ st.notes.filter (fun n => n.tags.contains tag) :=
      List.mem_filter.mpr ⟨hn, contains_eq_mem.mpr ht⟩
    rw [hfind] at hnmem
    simp at hnmem

/-- Updating note fields does not remove any tag. -/
theorem hasTag_updateNoteFields (τ : String) (nid : Nat) (f b : String)
    (st : Remote) (h : hasNoteWithTag τ st) :
    hasNoteWithTag τ (updateNoteFieldsOp nid f b st) := by
  obtain ⟨n, hn, ht⟩ := h
  refine ⟨if n.id = nid then { n with front := f, back := b } else n,
    List.mem_map.mpr ⟨n, hn, rfl⟩, ?_⟩
  by_cases hid : n.id = nid <;> simp [hid, ht]

/-- Adding tags does not remove any tag. -/
theorem hasTag_addTags (τ : String) (nids : List Nat) (tags : List String)
    (st : Remote) (h : hasNoteWithTag τ st) :
    hasNoteWithTag τ (addTagsOp nids tags st) := by
  obtain ⟨n, hn, ht⟩ := h
  refine ⟨if nids.contains n.id then
      { n with tags := n.tags ++ tags.filter (fun t => !n.tags.contains t) }
    else n, List.mem_map.mpr ⟨n, hn, rfl⟩, ?_⟩
  by_cases hid : nids.contains n.id = true
  · rw [if_pos hid]
    exact List.mem_append_left _ ht
  · rw [if_neg hid]
    exact ht

/-- Adding a note does not remove any tag. -/
theorem hasTag_addNote (τ : String) (d f b : String) (tags : List String)
    (st : Remote) (h : hasNoteWithTag τ st) :
    hasNoteWithTag τ (addNoteOp d f b tags st).1 := by
  obtain ⟨n, hn, ht⟩ := h
  exact ⟨n, List.mem_append_left _ hn, ht⟩

/-- The `dry_run = False` branch structure of `add_or_update_basic_note`. -/
theorem addOrUpdate_false_eq (c : Card) (st : Remote) :
    add_or_update_basic_note c false st =
      match find_note_id_by_tag c.stable_tag st with
      | none =>
          ((addNoteOp c.deck c.front c.back c.tags st).1,
           [RCall.findNotes ("tag:" ++ c.stable_tag),
            RCall.addNote c.deck c.front c.back c.tags])
      | some nid =>
          (addTagsOp [nid] c.tags (updateNoteFieldsOp nid c.front c.back st),
           [RCall.findNotes ("tag:" ++ c.stable_tag),
            RCall.updateNoteFields nid c.front c.back,
            RCall.addTags [nid] c.tags]) := by
  unfold add_or_update_basic_note
  cases find_note_id_by_tag c.stable_tag st <;> rfl

/-- One non-dry `add_or_update_basic_note` step preserves every present tag. -/
theorem addOrUpdate_preserves (c : Card) (τ : String) (st : Remote)
    (h : hasNoteWithTag τ st) :
    hasNoteWithTag τ (add_or_update_basic_note c false st).1 := by
  rw [addOrUpdate_false_eq]
  cases hf : find_note_id_by_tag c.stable_tag st with
  | none => exact hasTag_addNote τ _ _ _ _ _ h
  | some nid =>
    exact hasTag_addTags τ _ _ _ (hasTag_updateNoteFields τ _ _ _ _ h)

/-- After a non-dry `add_or_update_basic_note` of a card whose tags contain
its stable tag, some remote note carries that stable tag. -/
theorem addOrUpdate_establishes (c : Card) (st : Remote)
    (hc : c.stable_tag ∈ c.tags) :
    hasNoteWithTag c.stable_tag (add_or_update_basic_note c false st).1 := by
  rw [addOrUpdate_false_eq]
  cases hf : find_note_id_by_tag c.stable_tag st with
  | none =>
    refine ⟨{ id := st.nextId, deck := c.deck, front := c.front,
              back := c.back, tags := c.tags }, ?_, hc⟩
    exact List.mem_append_right _ (List.mem_singleton.mpr rfl)
  | some nid =>
    exact hasTag_addTags _ _ _ _
      (hasTag_updateNoteFields _ _ _ _ _ (hasTag_of_find_some hf))

/-- Unfolding of the note loop at a cons cell. -/
theorem syncNotesLoop_cons (dr : Bool) (c : Card) (cs : List Card) (st : Remote) :
    syncNotesLoop dr (c :: cs) st =
      ((syncNotesLoop dr cs (add_or_update_basic_note c dr st).1).1,
       (add_or_update_basic_note c dr st).2 ++
         (syncNotesLoop dr cs (add_or_update_basic_note c dr st).1).2) := rfl

/-- The non-dry note loop preserves every present tag. -/
theorem syncLoop_preserves (τ : String) :
    ∀ (cs : List Card) (st : Remote), hasNoteWithTag τ st →
      hasNoteWithTag τ (syncNotesLoop false cs st).1 := by
  intro cs
  induction cs with
  | nil => intro st h; exact h
  | cons c cs ih =>
    intro st h
    rw [syncNotesLoop_cons]
    exact ih _ (addOrUpdate_preserves c τ st h)

/-- After the non-dry note loop over cards whose tags contain their stable
tags, every such stable tag is present remotely. -/
theorem syncLoop_establishes :
    ∀ (cs : List Card) (st : Remote), (∀ c ∈ cs, c.stable_tag ∈ c.tags) →
      ∀ c ∈ cs, hasNoteWithTag c.stable_tag (syncNotesLoop false cs st).1 := by
  intro cs
  induction cs with
  | nil => intro st h c hc; simp at hc
  | cons c0 cs ih =>
    intro st h c hc
    rw [syncNotesLoop_cons]
    rcases List.mem_cons.mp hc with rfl | hc'
    · exact syncLoop_preserves _ cs _
        (addOrUpdate_establishes c st (h c (List.mem_cons_self c cs)))
    · exact ih _ (fun x hx => h x (List.mem_cons_of_mem _ hx)) c hc'

/-- The deck loop does not touch the stored notes. -/
theorem ensureDecksLoop_notes :
    ∀ (ds : List String) (st : Remote), (ensureDecksLoop ds st).1.notes = st.notes := by
  intro ds
  induction ds with
  | nil => intro st; rfl
  | cons d ds ih =>
    intro st
    have h := ih (createDeckOp d st)
    simpa [ensureDecksLoop, ensure_deck, createDeckOp] using h

/-- A present tag survives a state whose notes are unchanged. -/
theorem hasTag_congr_notes {τ : String} {st st' : Remote}
    (h : st'.notes = st.notes) (ht : hasNoteWithTag τ st) : hasNoteWithTag τ st' := by
  unfold hasNoteWithTag
  rw [h]
  exact ht

/-- The deck loop issues only deck-creation calls. -/
theorem ensureDecksLoop_no_addNote :
    ∀ (ds : List String) (st : Remote) (r : RCall),
      r ∈ (ensureDecksLoop ds st).2 → isAddNote r = false := by
  intro ds
  induction ds with
  | nil => intro st r hr; simp [ensureDecksLoop] at hr
  | cons d ds ih =>
    intro st r hr
    simp only [ensureDecksLoop, ensure_deck, List.cons_append, List.nil_append,
      List.mem_cons] at hr
    rcases hr with rfl | hr
    · rfl
    · exact ih _ r hr

/-- When every card's stable tag is already present, the non-dry note loop
takes the update branch every time: its trace contains no note-creation. -/
theorem syncLoop_no_addNote :
    ∀ (cs : List Card) (st : Remote),
      (∀ c ∈ cs, hasNoteWithTag c.stable_tag st) →
      ∀ r ∈ (syncNotesLoop false cs st).2, isAddNote r = false := by
  intro cs
  induction cs with
  | nil => intro st h r hr; simp [syncNotesLoop] at hr
  | cons c cs ih =>
    intro st h r hr
    obtain ⟨nid, hf⟩ := Option.isSome_iff_exists.mp
      (find_isSome_of_hasTag (h c (List.mem_cons_self c cs)))
    rw [syncNotesLoop_cons, addOrUpdate_false_eq, hf] at hr
    simp only [List.mem_append, List.mem_cons, List.not_mem_nil, or_false] at hr
    rcases hr with ((rfl | rfl | rfl) | hr)
    · rfl
    · rfl
    · rfl
    · have hpres : ∀ x ∈ cs,
          hasNoteWithTag x.stable_tag (add_or_update_basic_note c false st).1 :=
        fun x hx => addOrUpdate_preserves c _ st (h x (List.mem_cons_of_mem _ hx))
      rw [addOrUpdate_false_eq, hf] at hpres
      exact ih _ hpres r hr

/-- Unfolding of the non-dry sync run. -/
theorem runSync_false_eq (cards : List Card) (st : Remote) :
    runSync false cards st =
      ((syncNotesLoop false cards
          (ensureDecksLoop (sortedUniqueDecks cards) st).1).1,
       (ensureDecksLoop (sortedUniqueDecks cards) st).2 ++
         (syncNotesLoop false cards
           (ensureDecksLoop (sortedUniqueDecks cards) st).1).2) := rfl

/-- C2: for cards carrying their stable tag among their tags (which every
scanner card does), a second non-dry sync run over the state left by the
first finds every card's stable tag remotely, and its trace contains no
note-creation call: every card takes the update branch. -/
theorem second_sync_creates_no_notes (cards : List Card) (st : Remote)
    (htags : ∀ c ∈ cards, c.stable_tag ∈ c.tags) :
    (∀ c ∈ cards,
        (find_note_id_by_tag c.stable_tag (runSync false cards st).1).isSome)
    ∧ ∀ r ∈ (runSync false cards (runSync false cards st).1).2,
        isAddNote r = false := by
  have hst1 : ∀ c ∈ cards, hasNoteWithTag c.stable_tag (runSync false cards st).1 := by
    intro c hc
    rw [runSync_false_eq]
    exact syncLoop_establishes cards _ htags c hc
  constructor
  · intro c hc
    exact find_isSome_of_hasTag (hst1 c hc)
  · intro r hr
    rw [runSync_false_eq cards (runSync false cards st).1] at hr
    rcases List.mem_append.mp hr with hr | hr
    · exact ensureDecksLoop_no_addNote _ _ r hr
    · refine syncLoop_no_addNote cards _ ?_ r hr
      intro c hc
      exact hasTag_congr_notes (ensureDecksLoop_notes _ _) (hst1 c hc)

/-- Witness for the C2 theorem at a concrete card list and empty remote. -/
theorem second_sync_creates_no_notes_witness :
    (∀ c ∈ ([{ deck := "d", front := "f", back := "b", tags := ["t1"],
               stable_tag := "t1" }] : List Card), c.stable_tag ∈ c.tags)
    ∧ ((∀ c ∈ ([{ deck := "d", front := "f", back := "b", tags := ["t1"],
                  stable_tag := "t1" }] : List Card),
          (find_note_id_by_tag c.stable_tag
            (runSync false [{ deck := "d", front := "f", back := "b",
                              tags := ["t1"], stable_tag := "t1" }]
              { decks := [], notes := [], nextId := 0 }).1).isSome)
       ∧ ∀ r ∈ (runSync false
            [{ deck := "d", front := "f", back := "b", tags := ["t1"],
               stable_tag := "t1" }]
            (runSync false
              [{ deck := "d", front := "f", back := "b", tags := ["t1"],
                 stable_tag := "t1" }]
              { decks := [], notes := [], nextId := 0 }).1).2,
          isAddNote r = false) :=
  ⟨by decide,
    second_sync_creates_no_notes
      [{ deck := "d", front := "f", back := "b", tags := ["t1"],
         stable_tag := "t1" }]
      { decks := [], notes := [], nextId := 0 } (by decide)⟩

/-! ## Identical questions at different positions (concrete evidence)

The stable identifier truncates a SHA-1 digest to 48 bits, so distinctness
of the identifiers of two cards with the same question at different ordinals
holds for a given file exactly when the truncated digests of the two
preimages `rel||o₁||q` and `rel||o₂||q` differ; the example below checks a
concrete file.  A proof for every possible file would amount to
collision-freeness of the truncated digest on all such preimage pairs, which
is not provable (nor refutable by any known collision). -/

example :
    (extract_cards_from_markdown "n.md" "d" []
        ["Q:: q1", "A:: x", "Q:: q1", "A:: y"]).map Card.stable_tag
      = [stable_id_tag "n.md" "q1" 1, stable_id_tag "n.md" "q1" 2]
    ∧ stable_id_tag "n.md" "q1" 1 ≠ stable_id_tag "n.md" "q1" 2 := by decide
